import Mathlib

/-!
Verification of the riff_room_v2 backend orchestration core.

This file gives a shallow embedding of the parts of the backend that the
behavioural claims are about, translated from the Python sources:

* `app/services/cache_manager.py` (`CacheManager`): a directory-per-fingerprint
  artifact store with existence checks, LRU eviction under a byte ceiling, and
  access-time touching on reads.
* `app/core/demucs_processor.py` (`DemucsProcessor`): the processing pipeline
  `process_song` with its cache check, cancellation checkpoints, progress
  milestones and stem saving.
* `app/api/websocket.py` (`ConnectionManager`): the per-client progress channel
  with silent no-op sends, disconnect-on-send-failure and periodic stale sweep.
* `app/api/routes.py` (`_process_with_progress`): the background task wrapping
  `process_song`, forwarding events and cleaning up the temporary input file.

The filesystem is modelled as a list of cache entries (one directory per
fingerprint key, each holding named files with byte sizes and a last-access
time); clock reads are passed in explicitly as `now` arguments.
-/

namespace RiffRoom

/-- One on-disk cache entry: the directory named by the fingerprint `key`,
its files as (file name, byte size) pairs, and the directory's last-access
time (`st_atime`, updated by `CacheManager._touch_cache` and set on creation). -/
structure Entry where
  key : String
  files : List (String × Nat)
  atime : Nat
deriving DecidableEq, Repr

/-- The cache root: the entry directories under `cache_dir`, plus the
configured byte ceiling (`max_size_bytes = max_size_mb * 1024 * 1024`). -/
structure CacheState where
  entries : List Entry
  max_size_bytes : Nat
deriving DecidableEq, Repr

/-- Total byte size of one entry directory: sum of its files' sizes
(the `sum(f.stat().st_size for f in cache_dir.rglob("*"))` computation). -/
def Entry.size (e : Entry) : Nat := (e.files.map Prod.snd).sum

/-- Total bytes across a list of entries (`get_stats()["total_size_bytes"]`). -/
def totalSize (es : List Entry) : Nat := (es.map Entry.size).sum

/-- `(cache_dir / key).exists()`: the key's directory is present. -/
def hasEntry (s : CacheState) (k : String) : Bool :=
  s.entries.any (fun e => e.key == k)

/-- `(cache_dir / key / fname).exists()`: file `fname` is present inside the
key's directory. -/
def fileInEntry (s : CacheState) (k : String) (fname : String) : Bool :=
  s.entries.any (fun e => e.key == k && e.files.any (fun f => f.1 == fname))

/-- `shutil.rmtree(cache_dir / key)`: drop the key's directory. -/
def removeEntry (es : List Entry) (k : String) : List Entry :=
  es.filter (fun e => !(e.key == k))

/-- `Path.touch(exist_ok=True)` on the key's directory: refresh its access
time (`CacheManager._touch_cache`). -/
def touchEntry (es : List Entry) (k : String) (now : Nat) : List Entry :=
  es.map (fun e => if e.key == k then { e with atime := now } else e)

/-- `cache_dirs.sort(key=lambda x: x[1])`: entries ordered by access time,
oldest first (Python `list.sort` is stable, as is `List.mergeSort`). -/
def sortByAtime (es : List Entry) : List Entry :=
  es.mergeSort (fun a b => decide (a.atime ≤ b.atime))

/-- The eviction loop of `CacheManager._enforce_size_limit`: walk the entries
oldest-access-first, removing directories while the running total still
exceeds the ceiling, and keep the rest. -/
def evictLoop : List Entry → Nat → Nat → List Entry
  | [], _, _ => []
  | e :: rest, cur, maxB =>
    if cur ≤ maxB then e :: rest
    else evictLoop rest (cur - e.size) maxB

/-- First matching directory contents for a key, as a reader would list them. -/
def lookupFiles (s : CacheState) (k : String) : Option (List (String × Nat)) :=
  (s.entries.find? (fun e => e.key == k)).map Entry.files

namespace CacheManager

/-- `CacheManager.exists`: `return (self.cache_dir / cache_key).exists()` —
a bare directory-existence test. -/
def «exists» (s : CacheState) (k : String) : Bool := hasEntry s k

/-- `CacheManager.get`: `None` on a missing directory, otherwise touch the
access time and return the directory path. -/
def get (s : CacheState) (k : String) (now : Nat) : Option String × CacheState :=
  if hasEntry s k then
    (some k, { s with entries := touchEntry s.entries k now })
  else
    (none, s)

/-- `CacheManager._enforce_size_limit`: if the total is over the ceiling,
evict entries oldest-access-first until it is not. -/
def _enforce_size_limit (s : CacheState) : CacheState :=
  if totalSize s.entries ≤ s.max_size_bytes then s
  else
    { s with
      entries := evictLoop (sortByAtime s.entries) (totalSize s.entries) s.max_size_bytes }

/-- `CacheManager.set`: remove any existing directory for the key, copy the
source directory to the key's path (`shutil.copytree`, creation time `now`),
then enforce the size ceiling. Returns the cache path. -/
def set (s : CacheState) (k : String) (files : List (String × Nat)) (now : Nat) :
    String × CacheState :=
  let es1 := removeEntry s.entries k
  let es2 := es1 ++ [{ key := k, files := files, atime := now }]
  (k, _enforce_size_limit { s with entries := es2 })

/-- The reader-visible intermediate states of `CacheManager.set`: the state
before the call, after `shutil.rmtree` of the old directory, after
`shutil.copytree` has created the destination directory and copied the first
`i` files (for each `i` up to all of them), and after
`_enforce_size_limit`. `copytree` writes directly to the final path: there is
no staging location and no lock in `CacheManager.set`. -/
def set_trace (s : CacheState) (k : String) (files : List (String × Nat)) (now : Nat) :
    List CacheState :=
  let s1 : CacheState := { s with entries := removeEntry s.entries k }
  let copies := (List.range (files.length + 1)).map
    (fun i =>
      { s1 with entries := s1.entries ++ [{ key := k, files := files.take i, atime := now }] })
  s :: s1 :: (copies ++ [(set s k files now).2])

end CacheManager

namespace DemucsProcessor

/-- The required stems, from `_check_cache`: `["drums", "bass", "other", "vocals"]`. -/
def stem_types : List String := ["drums", "bass", "other", "vocals"]

/-- `DemucsProcessor._check_cache`: `all((cache_path / f).exists())` over the
four named stem wav files. -/
def _check_cache (s : CacheState) (k : String) : Bool :=
  stem_types.all (fun st => fileInEntry s k (st ++ ".wav"))

/-- `DemucsProcessor._get_stem_paths`: the fixed stem-name-to-path mapping. -/
def _get_stem_paths (k : String) : List (String × String) :=
  [("drums", k ++ "/drums.wav"), ("bass", k ++ "/bass.wav"),
   ("other", k ++ "/other.wav"), ("vocals", k ++ "/vocals.wav")]

/-- `cache_path.mkdir(parents=True, exist_ok=True)`: create the fingerprint's
directory (empty, created at `now`) unless it already exists. -/
def mkdirEntry (s : CacheState) (k : String) (now : Nat) : CacheState :=
  if hasEntry s k then s
  else { s with entries := s.entries ++ [{ key := k, files := [], atime := now }] }

/-- Write (or overwrite) one file inside a directory listing. -/
def upsertFile (fs : List (String × Nat)) (name : String) (sz : Nat) :
    List (String × Nat) :=
  if fs.any (fun f => f.1 == name) then
    fs.map (fun f => if f.1 == name then (name, sz) else f)
  else fs ++ [(name, sz)]

/-- `DemucsProcessor._save_stems`: write `{stem}.wav` into the cache directory
for each returned stem tensor. -/
def _save_stems (s : CacheState) (k : String) (stems : List (String × Nat)) :
    CacheState :=
  { s with
    entries := s.entries.map (fun e =>
      if e.key == k then
        { e with
          files := stems.foldl (fun fs st => upsertFile fs (st.1 ++ ".wav") st.2) e.files }
      else e) }

end DemucsProcessor

/-- Outcome of `DemucsProcessor.process_song`: the returned stem-path mapping,
a raised `CancellationError`, or a raised `ProcessingError`. -/
inductive ProcOutcome where
  | ok (stems : List (String × String))
  | cancelled (msg : String)
  | failed (msg : String)
deriving DecidableEq, Repr

/-- One job as `process_song` sees it: the file's fingerprint (`file_hash`),
whether `cancellation_event.is_set()` would read true at each of the four
checkpoints, and what `_run_separation` would do (`none` models the Demucs
call raising, `some stems` models it returning the named tensors with the
byte sizes their wav files will have). -/
structure SongJob where
  hash : String
  cancelAtStart : Bool
  cancelDuringLoad : Bool
  cancelBeforeSep : Bool
  cancelAfterSep : Bool
  sepResult : Option (List (String × Nat))
deriving DecidableEq, Repr

/-- Events pushed through the progress channel: progress percentage with a
status string, a terminal completion with the stem paths, or a terminal
error message. -/
inductive Event where
  | progress (pct : Nat) (status : String)
  | complete (stems : List (String × String))
  | error (msg : String)
deriving DecidableEq, Repr

namespace DemucsProcessor

/-- `DemucsProcessor.process_song`, step for step: hash the file (the hash is
`j.hash`), `mkdir` the fingerprint's cache directory, return early on a
complete cached entry, then run the checkpointed pipeline: cancellation check
before starting, progress 10 and cancellation check during load, progress 20
and cancellation check before separation, the separation call itself (which
may raise), the cancellation check after separation, progress 80, stem
saving, and progress 100. Returns the outcome, the final cache state, and
the progress events emitted via `progress_callback`. -/
def process_song (s : CacheState) (j : SongJob) (now : Nat) :
    ProcOutcome × CacheState × List Event :=
  let s1 := mkdirEntry s j.hash now
  if _check_cache s1 j.hash then
    (ProcOutcome.ok (_get_stem_paths j.hash), s1, [Event.progress 100 "Loaded from cache"])
  else if j.cancelAtStart then
    (ProcOutcome.cancelled "Processing cancelled before starting", s1, [])
  else if j.cancelDuringLoad then
    (ProcOutcome.cancelled "Processing cancelled during load", s1,
      [Event.progress 10 "Loading audio file..."])
  else if j.cancelBeforeSep then
    (ProcOutcome.cancelled "Processing cancelled before separation", s1,
      [Event.progress 10 "Loading audio file...", Event.progress 20 "Running stem separation..."])
  else
    match j.sepResult with
    | none =>
      (ProcOutcome.failed "Stem separation failed", s1,
        [Event.progress 10 "Loading audio file...", Event.progress 20 "Running stem separation..."])
    | some stems =>
      if j.cancelAfterSep then
        (ProcOutcome.cancelled "Processing cancelled after separation", s1,
          [Event.progress 10 "Loading audio file...",
           Event.progress 20 "Running stem separation..."])
      else
        (ProcOutcome.ok (_get_stem_paths j.hash), _save_stems s1 j.hash stems,
          [Event.progress 10 "Loading audio file...",
           Event.progress 20 "Running stem separation...",
           Event.progress 80 "Saving stems...",
           Event.progress 100 "Complete"])

end DemucsProcessor

/-- Result of one run of the background task `_process_with_progress`
(`routes.py`): the final cache state, the full event sequence sent towards
the client (forwarded progress events followed by the terminal completion or
error), whether the temporary input file still exists afterwards, and how
many times it was unlinked. -/
structure TaskRun where
  cache : CacheState
  trace : List Event
  temp_exists_after : Bool
  temp_deletions : Nat
deriving DecidableEq, Repr

/-- `_process_with_progress`: run `process_song`; on success send the
completion event, on `CancellationError` send an error event prefixed with
"Processing cancelled: ", on `ProcessingError` send the error message; in
every path the `finally` block unlinks the temporary file if it exists. -/
def process_with_progress (s : CacheState) (j : SongJob) (now : Nat) (tempE : Bool) :
    TaskRun :=
  match DemucsProcessor.process_song s j now with
  | (ProcOutcome.ok stems, s2, evs) =>
    { cache := s2, trace := evs ++ [Event.complete stems],
      temp_exists_after := false, temp_deletions := if tempE then 1 else 0 }
  | (ProcOutcome.cancelled msg, s2, evs) =>
    { cache := s2, trace := evs ++ [Event.error ("Processing cancelled: " ++ msg)],
      temp_exists_after := false, temp_deletions := if tempE then 1 else 0 }
  | (ProcOutcome.failed msg, s2, evs) =>
    { cache := s2, trace := evs ++ [Event.error msg],
      temp_exists_after := false, temp_deletions := if tempE then 1 else 0 }

/-- The `ConnectionManager` of `websocket.py`: registered client ids
(`active_connections`, the transport handles abstracted away), the
last-activity timestamps (`connection_timestamps`), and the idle threshold
(`stale_timeout`). -/
structure ConnectionManager where
  active_connections : List String
  connection_timestamps : List (String × Nat)
  stale_timeout : Nat
deriving DecidableEq, Repr

namespace ConnectionManager

/-- `client_id in self.active_connections`. -/
def hasConn (m : ConnectionManager) (cid : String) : Bool :=
  m.active_connections.any (fun c => c == cid)

/-- Dictionary assignment `self.connection_timestamps[client_id] = now`. -/
def setTimestamp (ts : List (String × Nat)) (cid : String) (now : Nat) :
    List (String × Nat) :=
  if ts.any (fun p => p.1 == cid) then
    ts.map (fun p => if p.1 == cid then (cid, now) else p)
  else ts ++ [(cid, now)]

/-- `ConnectionManager.disconnect`: drop the client from both dictionaries. -/
def disconnect (m : ConnectionManager) (cid : String) : ConnectionManager :=
  { m with
    active_connections := m.active_connections.filter (fun c => !(c == cid)),
    connection_timestamps := m.connection_timestamps.filter (fun p => !(p.1 == cid)) }

/-- `ConnectionManager.connect`: register the transport and stamp the time.
(`ok` transports are irrelevant here; `accept` failures never register.) -/
def connect (m : ConnectionManager) (cid : String) (now : Nat) : ConnectionManager :=
  { m with
    active_connections :=
      if hasConn m cid then m.active_connections else m.active_connections ++ [cid],
    connection_timestamps := setTimestamp m.connection_timestamps cid now }

/-- `ConnectionManager.send_progress`: no-op for an unregistered client;
on a successful `send_json` refresh the client's timestamp to `now`; if the
transport raises, disconnect the client and swallow the exception. The
oracle `ok` says whether the client's transport send succeeds. -/
def send_progress (m : ConnectionManager) (ok : String → Bool) (cid : String)
    (now : Nat) : ConnectionManager :=
  if hasConn m cid then
    if ok cid then
      { m with connection_timestamps := setTimestamp m.connection_timestamps cid now }
    else disconnect m cid
  else m

/-- `ConnectionManager.send_completion`: no-op for an unregistered client;
on transport failure disconnect; a successful send updates nothing (unlike
`send_progress`, there is no timestamp refresh in this method). -/
def send_completion (m : ConnectionManager) (ok : String → Bool) (cid : String) :
    ConnectionManager :=
  if hasConn m cid then
    (if ok cid then m else disconnect m cid)
  else m

/-- `ConnectionManager.send_error`: same shape as `send_completion` — no
timestamp refresh on success, disconnect on transport failure. -/
def send_error (m : ConnectionManager) (ok : String → Bool) (cid : String) :
    ConnectionManager :=
  if hasConn m cid then
    (if ok cid then m else disconnect m cid)
  else m

/-- One sweep iteration of `ConnectionManager._periodic_cleanup`: collect the
clients whose `now - timestamp` exceeds `stale_timeout`, then disconnect each
of them. -/
def _periodic_cleanup_sweep (m : ConnectionManager) (now : Nat) : ConnectionManager :=
  let stale :=
    (m.connection_timestamps.filter (fun p => decide (m.stale_timeout < now - p.2))).map
      Prod.fst
  stale.foldl disconnect m

end ConnectionManager

/-- Is this event a terminal event (completion or error)? -/
def Event.isTerminal : Event → Bool
  | Event.complete _ => true
  | Event.error _ => true
  | Event.progress _ _ => false

/-- The progress percentages of an event sequence, in emission order. -/
def progressPcts (evs : List Event) : List Nat :=
  evs.filterMap (fun e =>
    match e with
    | Event.progress p _ => some p
    | _ => none)

/-- Number of terminal events in a sequence. -/
def terminalCount (evs : List Event) : Nat :=
  (evs.filter Event.isTerminal).length

/-- Boolean check that a list of percentages is monotonically non-decreasing. -/
def nondecr : List Nat → Bool
  | [] => true
  | [_] => true
  | a :: b :: t => decide (a ≤ b) && nondecr (b :: t)

section Lemmas

open DemucsProcessor ConnectionManager

/-- Creating the fingerprint's (empty) directory adds no file anywhere. -/
theorem fileInEntry_mkdirEntry (s : CacheState) (k k' f : String) (now : Nat) :
    fileInEntry (mkdirEntry s k now) k' f = fileInEntry s k' f := by
  unfold mkdirEntry
  split
  · rfl
  · simp [fileInEntry]

/-- Creating the fingerprint's directory does not complete any entry. -/
theorem check_cache_mkdirEntry (s : CacheState) (k k' : String) (now : Nat) :
    _check_cache (mkdirEntry s k now) k' = _check_cache s k' := by
  unfold _check_cache
  congr 1
  funext st
  exact fileInEntry_mkdirEntry s k k' (st ++ ".wav") now

/-- After `mkdir`, the fingerprint's directory exists. -/
theorem hasEntry_mkdirEntry_self (s : CacheState) (k : String) (now : Nat) :
    hasEntry (mkdirEntry s k now) k = true := by
  unfold mkdirEntry
  split
  · assumption
  · simp [hasEntry]

/-- `mkdir` never removes a directory. -/
theorem hasEntry_mkdirEntry_mono (s : CacheState) (k k' : String) (now : Nat)
    (h : hasEntry s k' = true) : hasEntry (mkdirEntry s k now) k' = true := by
  unfold mkdirEntry
  split
  · exact h
  · simp only [hasEntry, List.any_append, Bool.or_eq_true]
    exact Or.inl h

/-- Saving stems rewrites file lists but keeps every directory in place. -/
theorem hasEntry_save_stems (s : CacheState) (k k' : String)
    (stems : List (String × Nat)) :
    hasEntry (_save_stems s k stems) k' = hasEntry s k' := by
  unfold _save_stems hasEntry
  simp only [List.any_map]
  congr 1
  funext e
  by_cases h : e.key == k <;> simp [h, Function.comp]

end Lemmas

/-- Claim C1 (counterexample): a cache state whose directory for fingerprint
"f" exists but holds only `drums.wav`. `CacheManager.exists` returns true
there although the required artifact set is incomplete, refuting "exists
returns true iff every required named stem artifact is present". -/
theorem claim1_counterexample :
    ¬ (CacheManager.«exists»
        { entries := [{ key := "f", files := [("drums.wav", 1)], atime := 0 }],
          max_size_bytes := 1000 } "f" = true
      ↔ DemucsProcessor._check_cache
        { entries := [{ key := "f", files := [("drums.wav", 1)], atime := 0 }],
          max_size_bytes := 1000 } "f" = true) := by
  decide

/-- Claim C1 (amended): `CacheManager.exists` returns true iff the
fingerprint's directory exists, regardless of which artifacts it holds; the
completeness test requiring every named stem artifact is the separate
`DemucsProcessor._check_cache`, which returns true iff each of the four stem
wav files is present, and completeness implies bare existence but not
conversely. -/
theorem claim1_main (s : CacheState) (k : String) :
    (CacheManager.«exists» s k = true ↔ ∃ e ∈ s.entries, e.key = k) ∧
    (DemucsProcessor._check_cache s k = true ↔
      ∀ st ∈ DemucsProcessor.stem_types, fileInEntry s k (st ++ ".wav") = true) ∧
    (DemucsProcessor._check_cache s k = true → CacheManager.«exists» s k = true) := by
  refine ⟨?_, ?_, ?_⟩
  · simp [CacheManager.«exists», hasEntry, List.any_eq_true, beq_iff_eq]
  · simp [DemucsProcessor._check_cache, List.all_eq_true]
  · intro h
    have hd : fileInEntry s k "drums.wav" = true := by
      simp only [DemucsProcessor._check_cache, DemucsProcessor.stem_types,
        List.all_eq_true] at h
      exact h "drums" (by simp)
    simp only [fileInEntry, List.any_eq_true, Bool.and_eq_true] at hd
    obtain ⟨e, he, hk, -⟩ := hd
    simp only [CacheManager.«exists», hasEntry, List.any_eq_true]
    exact ⟨e, he, hk⟩

/-- Claim C1 (witness): in a state holding a complete entry for "g", the
amended equivalences hold concretely. -/
theorem claim1_witness :
    CacheManager.«exists»
      ⟨[⟨"g", [("drums.wav", 1), ("bass.wav", 1), ("other.wav", 1), ("vocals.wav", 1)], 0⟩],
        1000⟩ "g" = true :=
  (claim1_main _ "g").2.2 (by decide)

/-- Claim C10: every call to `process_song` creates the fingerprint's cache
directory up front (`mkdir` with `exist_ok`), before the completeness check
and before any cancellation checkpoint; hence after any call — cache hit,
success, failure, or cancellation at any checkpoint — the fingerprint's
directory exists in the resulting cache state. -/
theorem claim10_main (s : CacheState) (j : SongJob) (now : Nat) :
    hasEntry (DemucsProcessor.process_song s j now).2.1 j.hash = true := by
  have hmk := hasEntry_mkdirEntry_self s j.hash now
  simp only [DemucsProcessor.process_song]
  repeat' split
  all_goals dsimp only
  all_goals first
    | exact hmk
    | (rw [hasEntry_save_stems]; exact hmk)

/-- Claim C2: if the job is a cache miss and the cancellation signal is
observed at any defined checkpoint — before starting, during load, before
separation, or (when separation returns) immediately after it — then
`process_song` raises a cancellation error, writes no stem artifact file
anywhere in the cache, and leaves no complete cache entry for the job's
fingerprint. -/
theorem claim2_main (s : CacheState) (j : SongJob) (now : Nat)
    (hmiss : DemucsProcessor._check_cache s j.hash = false)
    (hcancel : j.cancelAtStart = true ∨ j.cancelDuringLoad = true ∨
      j.cancelBeforeSep = true ∨ (j.sepResult.isSome = true ∧ j.cancelAfterSep = true)) :
    (∃ msg, (DemucsProcessor.process_song s j now).1 = ProcOutcome.cancelled msg) ∧
    (∀ k f, fileInEntry (DemucsProcessor.process_song s j now).2.1 k f = fileInEntry s k f) ∧
    DemucsProcessor._check_cache (DemucsProcessor.process_song s j now).2.1 j.hash = false := by
  obtain ⟨h, c1, c2, c3, c4, sep⟩ := j
  simp only at hmiss hcancel ⊢
  have hc : DemucsProcessor._check_cache (DemucsProcessor.mkdirEntry s h now) h = false := by
    rw [check_cache_mkdirEntry]; exact hmiss
  cases c1 <;> cases c2 <;> cases c3 <;> cases c4 <;> rcases sep with _ | stems <;>
    simp_all [DemucsProcessor.process_song, fileInEntry_mkdirEntry, check_cache_mkdirEntry]

/-- Claim C2 (witness): a job cancelled before starting, on an empty cache. -/
theorem claim2_witness :
    (∃ msg, (DemucsProcessor.process_song ⟨[], 1000⟩ ⟨"f", true, false, false, false, some []⟩ 5).1
      = ProcOutcome.cancelled msg) ∧
    (∀ k f, fileInEntry
        (DemucsProcessor.process_song ⟨[], 1000⟩ ⟨"f", true, false, false, false, some []⟩ 5).2.1 k f
      = fileInEntry ⟨[], 1000⟩ k f) ∧
    DemucsProcessor._check_cache
      (DemucsProcessor.process_song ⟨[], 1000⟩ ⟨"f", true, false, false, false, some []⟩ 5).2.1 "f"
      = false :=
  claim2_main ⟨[], 1000⟩ ⟨"f", true, false, false, false, some []⟩ 5 (by decide) (Or.inl rfl)

/-- Claim C6: for each of the three send operations, an unregistered client id
makes the call a silent no-op leaving the whole manager unchanged, and a
registered client whose transport raises on send is disconnected (removed
from both maps) while the call still returns normally. -/
theorem claim6_main (m : ConnectionManager) (ok : String → Bool) (cid : String)
    (now : Nat) :
    (ConnectionManager.hasConn m cid = false →
      ConnectionManager.send_progress m ok cid now = m ∧
      ConnectionManager.send_completion m ok cid = m ∧
      ConnectionManager.send_error m ok cid = m) ∧
    (ConnectionManager.hasConn m cid = true → ok cid = false →
      ConnectionManager.send_progress m ok cid now = ConnectionManager.disconnect m cid ∧
      ConnectionManager.send_completion m ok cid = ConnectionManager.disconnect m cid ∧
      ConnectionManager.send_error m ok cid = ConnectionManager.disconnect m cid) := by
  constructor
  · intro h
    refine ⟨?_, ?_, ?_⟩ <;>
      simp [ConnectionManager.send_progress, ConnectionManager.send_completion,
        ConnectionManager.send_error, h]
  · intro h hok
    refine ⟨?_, ?_, ?_⟩ <;>
      simp [ConnectionManager.send_progress, ConnectionManager.send_completion,
        ConnectionManager.send_error, h, hok]

/-- Claim C6 (witness): concrete no-op for an unknown client and concrete
disconnect on a failing transport. -/
theorem claim6_witness :
    (ConnectionManager.send_progress ⟨["a"], [("a", 0)], 300⟩ (fun _ => false) "b" 7
        = ⟨["a"], [("a", 0)], 300⟩ ∧
      ConnectionManager.send_completion ⟨["a"], [("a", 0)], 300⟩ (fun _ => false) "b"
        = ⟨["a"], [("a", 0)], 300⟩ ∧
      ConnectionManager.send_error ⟨["a"], [("a", 0)], 300⟩ (fun _ => false) "b"
        = ⟨["a"], [("a", 0)], 300⟩) ∧
    (ConnectionManager.send_progress ⟨["a"], [("a", 0)], 300⟩ (fun _ => false) "a" 7
        = ConnectionManager.disconnect ⟨["a"], [("a", 0)], 300⟩ "a" ∧
      ConnectionManager.send_completion ⟨["a"], [("a", 0)], 300⟩ (fun _ => false) "a"
        = ConnectionManager.disconnect ⟨["a"], [("a", 0)], 300⟩ "a" ∧
      ConnectionManager.send_error ⟨["a"], [("a", 0)], 300⟩ (fun _ => false) "a"
        = ConnectionManager.disconnect ⟨["a"], [("a", 0)], 300⟩ "a") :=
  ⟨(claim6_main ⟨["a"], [("a", 0)], 300⟩ (fun _ => false) "b" 7).1 (by decide),
   (claim6_main ⟨["a"], [("a", 0)], 300⟩ (fun _ => false) "a" 7).2 (by decide) rfl⟩

/-- Claim C7: for any single job, the progress percentages in the event
sequence produced by the background task (10/20/80/100, or a single 100 on a
cache hit, possibly truncated by cancellation or failure) are monotonically
non-decreasing, and the sequence contains exactly one terminal event —
a completion or an error — which is its last element. -/
theorem claim7_main (s : CacheState) (j : SongJob) (now : Nat) (tempE : Bool) :
    nondecr (progressPcts (process_with_progress s j now tempE).trace) = true ∧
    terminalCount (process_with_progress s j now tempE).trace = 1 ∧
    (process_with_progress s j now tempE).trace.getLast?.map Event.isTerminal
      = some true := by
  obtain ⟨h, c1, c2, c3, c4, sep⟩ := j
  by_cases hc : DemucsProcessor._check_cache (DemucsProcessor.mkdirEntry s h now) h = true <;>
    cases c1 <;> cases c2 <;> cases c3 <;> cases c4 <;> rcases sep with _ | stems <;>
      simp [process_with_progress, DemucsProcessor.process_song, hc, progressPcts,
        terminalCount, nondecr, Event.isTerminal, List.getLast?]

/-- Claim C9: on every exit path of the background task — cache hit, compute
success, compute failure, and cancellation at any checkpoint — the job's
temporary input file (present when the task starts) is deleted exactly once
and no longer exists when the task finishes. -/
theorem claim9_main (s : CacheState) (j : SongJob) (now : Nat) :
    (process_with_progress s j now true).temp_deletions = 1 ∧
    (process_with_progress s j now true).temp_exists_after = false := by
  rcases hps : DemucsProcessor.process_song s j now with ⟨res, s2, evs⟩
  cases res <;> simp [process_with_progress, hps]

section EvictionLemmas

/-- Total size distributes over append. -/
theorem totalSize_append (l1 l2 : List Entry) :
    totalSize (l1 ++ l2) = totalSize l1 + totalSize l2 := by
  simp [totalSize]

/-- Permuting entries preserves their total size. -/
theorem totalSize_perm {l1 l2 : List Entry} (h : l1.Perm l2) :
    totalSize l1 = totalSize l2 :=
  (h.map Entry.size).sum_eq

/-- Sorting by access time preserves the total size. -/
theorem totalSize_sortByAtime (l : List Entry) :
    totalSize (sortByAtime l) = totalSize l :=
  totalSize_perm (List.mergeSort_perm l _)

/-- The eviction loop only ever drops an initial segment of the (already
atime-sorted) list it walks. -/
theorem evictLoop_drop (l : List Entry) (maxB : Nat) :
    ∀ cur, ∃ n, evictLoop l cur maxB = l.drop n := by
  induction l with
  | nil => exact fun _ => ⟨0, rfl⟩
  | cons e rest ih =>
    intro cur
    unfold evictLoop
    split
    · exact ⟨0, rfl⟩
    · obtain ⟨n, hn⟩ := ih (cur - e.size)
      exact ⟨n + 1, by simpa using hn⟩

/-- When started with the true total, the eviction loop ends at or under the
ceiling. -/
theorem evictLoop_totalSize_le (l : List Entry) (maxB : Nat) :
    ∀ cur, cur = totalSize l → totalSize (evictLoop l cur maxB) ≤ maxB := by
  induction l with
  | nil =>
    intro cur _
    simp [evictLoop, totalSize]
  | cons e rest ih =>
    intro cur hcur
    unfold evictLoop
    split
    · next hle => rw [← hcur]; exact hle
    · apply ih
      subst hcur
      have : totalSize (e :: rest) = e.size + totalSize rest := by
        simp [totalSize]
      omega

/-- An element whose own size fits under the ceiling survives the eviction
loop when it is the last (most recently accessed) element of the walked
list and the loop is started with the true total. -/
theorem mem_evictLoop_last (e : Entry) (maxB : Nat) (hsz : e.size ≤ maxB) :
    ∀ (u : List Entry) (cur), cur = totalSize (u ++ [e]) →
      e ∈ evictLoop (u ++ [e]) cur maxB := by
  intro u
  induction u with
  | nil =>
    intro cur hcur
    have hce : cur = e.size := by simpa [totalSize] using hcur
    rw [List.nil_append]
    unfold evictLoop
    split
    · simp
    · next hgt => omega
  | cons a u ih =>
    intro cur hcur
    rw [List.cons_append]
    unfold evictLoop
    split
    · simp
    · apply ih
      rw [hcur, List.cons_append]
      have : totalSize (a :: (u ++ [e])) = a.size + totalSize (u ++ [e]) := by
        simp [totalSize]
      omega

/-- In a sorted-by-atime listing, an appended entry strictly fresher than all
others comes last. -/
theorem sortByAtime_append_max (es : List Entry) (e : Entry)
    (hlt : ∀ x ∈ es, x.atime < e.atime) :
    ∃ u, sortByAtime (es ++ [e]) = u ++ [e] := by
  have hperm : (sortByAtime (es ++ [e])).Perm (es ++ [e]) :=
    List.mergeSort_perm _ _
  have hmem : e ∈ sortByAtime (es ++ [e]) := hperm.mem_iff.2 (by simp)
  obtain ⟨u, v, huv⟩ := List.append_of_mem hmem
  refine ⟨u, ?_⟩
  rw [huv]
  cases v with
  | nil => rfl
  | cons b v' =>
    exfalso
    have hsort : (sortByAtime (es ++ [e])).Pairwise
        (fun a b => (decide (a.atime ≤ b.atime)) = true) :=
      List.sorted_mergeSort
        (fun a b c h1 h2 => by
          simp only [decide_eq_true_eq] at h1 h2 ⊢
          omega)
        (fun a b => by
          simp only [Bool.or_eq_true, decide_eq_true_eq]
          omega)
        (es ++ [e])
    rw [huv] at hsort
    have htail : (e :: b :: v').Pairwise
        (fun a b => (decide (a.atime ≤ b.atime)) = true) :=
      (List.pairwise_append.1 hsort).2.1
    have hle : e.atime ≤ b.atime := by
      have := List.rel_of_pairwise_cons htail (List.mem_cons_self b v')
      simpa using this
    have hbmem : b ∈ es ++ [e] := hperm.mem_iff.1 (by rw [huv]; simp)
    rcases List.mem_append.1 hbmem with hb | hb
    · exact absurd hle (by have := hlt b hb; omega)
    · have hbe : b = e := by simpa using hb
      subst hbe
      have hne : b ∉ es := fun hx => lt_irrefl _ (hlt b hx)
      have hcount := hperm.count_eq b
      rw [huv] at hcount
      have hzero : List.count b es = 0 := List.count_eq_zero.2 hne
      simp [List.count_append, List.count_cons, hzero] at hcount
      omega

end EvictionLemmas

/-- Claim C4: whenever a put (`CacheManager.set`) leaves the total cached
bytes above the configured ceiling, the eviction pass brings the surviving
entries' total to at or under the ceiling, and the removed entries are
exactly an initial segment of the entries ordered oldest access time first
(so the least-recently-accessed entries go first and recently touched ones
survive longest). -/
theorem claim4_main (s : CacheState) (k : String) (files : List (String × Nat))
    (now : Nat)
    (hover : s.max_size_bytes <
      totalSize (removeEntry s.entries k ++ [⟨k, files, now⟩])) :
    totalSize (CacheManager.set s k files now).2.entries ≤ s.max_size_bytes ∧
    ∃ n, (CacheManager.set s k files now).2.entries
      = (sortByAtime (removeEntry s.entries k ++ [⟨k, files, now⟩])).drop n := by
  have hset : (CacheManager.set s k files now).2
      = CacheManager._enforce_size_limit
          ⟨removeEntry s.entries k ++ [⟨k, files, now⟩], s.max_size_bytes⟩ := rfl
  have hnot : ¬ totalSize (removeEntry s.entries k ++ [⟨k, files, now⟩])
      ≤ s.max_size_bytes := by omega
  rw [hset]
  unfold CacheManager._enforce_size_limit
  dsimp only
  rw [if_neg hnot]
  dsimp only
  constructor
  · exact evictLoop_totalSize_le _ s.max_size_bytes _
      (totalSize_sortByAtime _).symm
  · exact evictLoop_drop _ _ _

/-- Claim C4 (witness): putting an 11-byte entry into an empty cache with a
10-byte ceiling overflows it; afterwards the total is within the ceiling and
the survivors are a suffix of the atime-sorted listing. -/
theorem claim4_witness :
    totalSize (CacheManager.set ⟨[], 10⟩ "f" [("drums.wav", 11)] 5).2.entries ≤ 10 ∧
    ∃ n, (CacheManager.set ⟨[], 10⟩ "f" [("drums.wav", 11)] 5).2.entries
      = (sortByAtime (removeEntry ([] : List Entry) "f"
          ++ [⟨"f", [("drums.wav", 11)], 5⟩])).drop n :=
  claim4_main ⟨[], 10⟩ "f" [("drums.wav", 11)] 5 (by decide)

/-- `find?` skips a leading block containing no match. -/
theorem find?_append_of_none {p : Entry → Bool} {l1 : List Entry} (l2 : List Entry)
    (h : l1.find? p = none) : (l1 ++ l2).find? p = l2.find? p := by
  induction l1 with
  | nil => rfl
  | cons a t ih =>
    cases hpa : p a with
    | true => simp [List.find?, hpa] at h
    | false =>
      simp only [List.find?, hpa] at h
      rw [List.cons_append]
      simp only [List.find?, hpa]
      exact ih h

/-- Entries surviving `removeEntry` have a different key. -/
theorem key_ne_of_mem_removeEntry {es : List Entry} {k : String} {x : Entry}
    (hx : x ∈ removeEntry es k) : x.key ≠ k := by
  have := (List.mem_filter.1 hx).2
  simpa using this

/-- In the listing right after a copy, the only entry keyed `k` is the new one. -/
theorem eq_new_of_mem_inserted {s : CacheState} {k : String}
    {files : List (String × Nat)} {now : Nat} {x : Entry}
    (hx : x ∈ removeEntry s.entries k ++ [⟨k, files, now⟩]) (hk : x.key = k) :
    x = ⟨k, files, now⟩ := by
  rcases List.mem_append.1 hx with hx | hx
  · exact absurd hk (key_ne_of_mem_removeEntry hx)
  · simpa using hx

unseal List.merge List.mergeSort in
/-- Claim C3 (counterexample): putting a complete four-stem artifact set of 12
bytes into an empty cache whose ceiling is 10 bytes evicts the entry that was
just written — afterwards `exists` is false and `get` returns nothing,
refuting the unconditional round-trip. -/
theorem claim3_counterexample :
    CacheManager.«exists»
      (CacheManager.set ⟨[], 10⟩ "f"
        [("drums.wav", 3), ("bass.wav", 3), ("other.wav", 3), ("vocals.wav", 3)] 5).2
      "f" = false ∧
    (CacheManager.get
      (CacheManager.set ⟨[], 10⟩ "f"
        [("drums.wav", 3), ("bass.wav", 3), ("other.wav", 3), ("vocals.wav", 3)] 5).2
      "f" 6).1 = none := by
  decide

/-- Claim C3 (amended): after a put whose artifact set fits within the byte
ceiling, performed at a time fresher than every existing entry's last access,
`exists(f)` is true and `get(f)` returns the directory, whose entry holds
exactly the same named artifact files as the source directory. -/
theorem claim3_main (s : CacheState) (k : String) (files : List (String × Nat))
    (now now2 : Nat)
    (hfresh : ∀ e ∈ s.entries, e.atime < now)
    (hsz : (files.map Prod.snd).sum ≤ s.max_size_bytes) :
    CacheManager.«exists» (CacheManager.set s k files now).2 k = true ∧
    (CacheManager.get (CacheManager.set s k files now).2 k now2).1 = some k ∧
    ∀ e ∈ (CacheManager.get (CacheManager.set s k files now).2 k now2).2.entries,
      e.key = k → e.files = files := by
  have hset : (CacheManager.set s k files now).2
      = CacheManager._enforce_size_limit
          ⟨removeEntry s.entries k ++ [⟨k, files, now⟩], s.max_size_bytes⟩ := rfl
  have hszE : Entry.size ⟨k, files, now⟩ ≤ s.max_size_bytes := by
    simpa [Entry.size] using hsz
  have hmemNew : (⟨k, files, now⟩ : Entry) ∈ (CacheManager.set s k files now).2.entries := by
    rw [hset]
    unfold CacheManager._enforce_size_limit
    dsimp only
    split
    · exact List.mem_append.2 (Or.inr (by simp))
    · obtain ⟨u, hu⟩ := sortByAtime_append_max (removeEntry s.entries k) ⟨k, files, now⟩
        (fun x hx => hfresh x (List.mem_filter.1 hx).1)
      have hcur : totalSize (removeEntry s.entries k ++ [⟨k, files, now⟩])
          = totalSize (u ++ [⟨k, files, now⟩]) := by
        rw [← hu, totalSize_sortByAtime]
      rw [hu]
      exact mem_evictLoop_last _ _ hszE u _ hcur
  have hsub : ∀ x ∈ (CacheManager.set s k files now).2.entries,
      x ∈ removeEntry s.entries k ++ [⟨k, files, now⟩] := by
    rw [hset]
    unfold CacheManager._enforce_size_limit
    dsimp only
    split
    · exact fun x hx => hx
    · intro x hx
      obtain ⟨n, hn⟩ := evictLoop_drop
        (sortByAtime (removeEntry s.entries k ++ [⟨k, files, now⟩])) s.max_size_bytes
        (totalSize (removeEntry s.entries k ++ [⟨k, files, now⟩]))
      rw [hn] at hx
      have hx2 : x ∈ sortByAtime (removeEntry s.entries k ++ [⟨k, files, now⟩]) :=
        List.drop_subset _ _ hx
      exact (List.mergeSort_perm _ _).mem_iff.1 hx2
  have hhas : hasEntry (CacheManager.set s k files now).2 k = true := by
    simp only [hasEntry, List.any_eq_true]
    exact ⟨⟨k, files, now⟩, hmemNew, by simp⟩
  refine ⟨hhas, ?_, ?_⟩
  · simp [CacheManager.get, hhas]
  · intro e he hk
    simp only [CacheManager.get, hhas, if_true] at he
    simp only [touchEntry, List.mem_map] at he
    obtain ⟨e0, he0, rfl⟩ := he
    have hkf : (if e0.key == k then { e0 with atime := now2 } else e0).key = e0.key ∧
        (if e0.key == k then { e0 with atime := now2 } else e0).files = e0.files := by
      split <;> simp
    rw [hkf.1] at hk
    have he0new := eq_new_of_mem_inserted (hsub e0 he0) hk
    rw [hkf.2, he0new]

/-- Claim C3 (witness): the amended round-trip at a concrete put that fits the
ceiling. -/
theorem claim3_witness :
    CacheManager.«exists»
      (CacheManager.set ⟨[], 1000⟩ "f"
        [("drums.wav", 3), ("bass.wav", 3), ("other.wav", 3), ("vocals.wav", 3)] 5).2
      "f" = true ∧
    (CacheManager.get
      (CacheManager.set ⟨[], 1000⟩ "f"
        [("drums.wav", 3), ("bass.wav", 3), ("other.wav", 3), ("vocals.wav", 3)] 5).2
      "f" 6).1 = some "f" ∧
    ∀ e ∈ (CacheManager.get
        (CacheManager.set ⟨[], 1000⟩ "f"
          [("drums.wav", 3), ("bass.wav", 3), ("other.wav", 3), ("vocals.wav", 3)] 5).2
        "f" 6).2.entries,
      e.key = "f" →
        e.files = [("drums.wav", 3), ("bass.wav", 3), ("other.wav", 3), ("vocals.wav", 3)] :=
  claim3_main ⟨[], 1000⟩ "f"
    [("drums.wav", 3), ("bass.wav", 3), ("other.wav", 3), ("vocals.wav", 3)] 5 6
    (by decide) (by decide)

/-- Claim C5 (counterexample): during a put of a complete four-stem artifact
set into an empty cache, `CacheManager.set` copies straight into the final
directory, so the trace of reader-visible states contains one where the
fingerprint's directory exists but holds only some of the required artifacts
— refuting "every reader-visible state is entirely absent or entirely
complete". -/
theorem claim5_counterexample :
    ¬ ∀ st ∈ CacheManager.set_trace (⟨[], 1000⟩ : CacheState) "f"
        [("drums.wav", 1), ("bass.wav", 1), ("other.wav", 1), ("vocals.wav", 1)] 3,
      (hasEntry st "f" = false ∨ DemucsProcessor._check_cache st "f" = true) := by
  decide

/-- Claim C5 (amended): `CacheManager.set` does not stage and publish
atomically — it removes the old entry and copies file by file into the final
location with no lock, so for every prefix length `i` of the artifact set
there is a reader-visible intermediate state in which the fingerprint's
directory exists and holds exactly the first `i` files. A concurrent reader
can therefore observe a partially written entry. -/
theorem claim5_main (s : CacheState) (k : String) (files : List (String × Nat))
    (now : Nat) (i : Nat) (hi : i ≤ files.length) :
    ∃ st ∈ CacheManager.set_trace s k files now,
      hasEntry st k = true ∧ lookupFiles st k = some (files.take i) := by
  refine ⟨⟨removeEntry s.entries k ++ [⟨k, files.take i, now⟩], s.max_size_bytes⟩, ?_, ?_, ?_⟩
  · simp only [CacheManager.set_trace]
    refine List.mem_cons.2 (Or.inr (List.mem_cons.2 (Or.inr ?_)))
    refine List.mem_append.2 (Or.inl ?_)
    exact List.mem_map.2 ⟨i, List.mem_range.2 (by omega), rfl⟩
  · simp [hasEntry]
  · have hnone : (removeEntry s.entries k).find? (fun e => e.key == k) = none := by
      apply List.find?_eq_none.2
      intro x hx
      simpa using key_ne_of_mem_removeEntry hx
    simp only [lookupFiles]
    rw [find?_append_of_none _ hnone]
    simp [List.find?]

/-- Claim C5 (witness): concretely, after the first of the four stem files is
copied, the directory for "f" is visible holding only `drums.wav`. -/
theorem claim5_witness :
    ∃ st ∈ CacheManager.set_trace (⟨[], 1000⟩ : CacheState) "f"
        [("drums.wav", 1), ("bass.wav", 1), ("other.wav", 1), ("vocals.wav", 1)] 3,
      hasEntry st "f" = true ∧ lookupFiles st "f" = some [("drums.wav", 1)] :=
  claim5_main ⟨[], 1000⟩ "f"
    [("drums.wav", 1), ("bass.wav", 1), ("other.wav", 1), ("vocals.wav", 1)] 3 1
    (by decide)

/-- Disconnecting one client removes exactly that client from the active set. -/
theorem hasConn_disconnect (m : ConnectionManager) (cid d : String) :
    ConnectionManager.hasConn (ConnectionManager.disconnect m d) cid = true ↔
      (ConnectionManager.hasConn m cid = true ∧ cid ≠ d) := by
  simp only [ConnectionManager.hasConn, ConnectionManager.disconnect,
    List.any_eq_true, List.mem_filter, beq_iff_eq, Bool.not_eq_true',
    beq_eq_false_iff_ne, ne_eq]
  constructor
  · rintro ⟨c, ⟨hc, hne⟩, rfl⟩
    exact ⟨⟨c, hc, rfl⟩, hne⟩
  · rintro ⟨⟨c, hc, rfl⟩, hne⟩
    exact ⟨c, ⟨hc, hne⟩, rfl⟩

/-- Folding `disconnect` over a list removes exactly the listed clients. -/
theorem hasConn_foldl_disconnect (S : List String) (cid : String) :
    ∀ m, ConnectionManager.hasConn (S.foldl ConnectionManager.disconnect m) cid = true ↔
      (ConnectionManager.hasConn m cid = true ∧ cid ∉ S) := by
  induction S with
  | nil => intro m; simp
  | cons d S ih =>
    intro m
    rw [List.foldl_cons, ih (ConnectionManager.disconnect m d), hasConn_disconnect]
    simp only [List.mem_cons, not_or, ne_eq]
    tauto

/-- Claim C8 (counterexample): a successful completion delivery does not
refresh the recorded last-activity time. A subscriber registered at time 0
that receives a successful completion send is still removed by a sweep at
time 400 under a 300-unit threshold, although it just had a successful
delivery — refuting "a subscriber counts as active exactly when it has had a
successful delivery (of any event kind) or registration within the timeout
window". -/
theorem claim8_counterexample :
    ConnectionManager.send_completion ⟨["c"], [("c", 0)], 300⟩ (fun _ => true) "c"
      = ⟨["c"], [("c", 0)], 300⟩ ∧
    ConnectionManager.hasConn ⟨["c"], [("c", 0)], 300⟩ "c" = true ∧
    ConnectionManager.hasConn
      (ConnectionManager._periodic_cleanup_sweep
        (ConnectionManager.send_completion ⟨["c"], [("c", 0)], 300⟩ (fun _ => true) "c") 400)
      "c" = false := by
  decide

/-- Claim C8 (amended): the periodic sweep removes exactly those subscribers
whose recorded timestamp is older than the idle threshold at sweep time; the
timestamp is refreshed only by registration and by a successful progress
send — successful completion and error sends leave the manager, and hence
the timestamp, unchanged. -/
theorem claim8_main (m : ConnectionManager) (now : Nat) (cid : String)
    (ok : String → Bool) :
    (ConnectionManager.hasConn (ConnectionManager._periodic_cleanup_sweep m now) cid = true ↔
      (ConnectionManager.hasConn m cid = true ∧
        ¬ ∃ p ∈ m.connection_timestamps, p.1 = cid ∧ m.stale_timeout < now - p.2)) ∧
    (ok cid = true → ConnectionManager.send_completion m ok cid = m) ∧
    (ok cid = true → ConnectionManager.send_error m ok cid = m) ∧
    (ConnectionManager.hasConn m cid = true → ok cid = true →
      ConnectionManager.send_progress m ok cid now
        = { m with connection_timestamps :=
            ConnectionManager.setTimestamp m.connection_timestamps cid now }) := by
  refine ⟨?_, ?_, ?_, ?_⟩
  · have hS : cid ∈ (m.connection_timestamps.filter
        (fun p => decide (m.stale_timeout < now - p.2))).map Prod.fst ↔
        ∃ p ∈ m.connection_timestamps, p.1 = cid ∧ m.stale_timeout < now - p.2 := by
      simp only [List.mem_map, List.mem_filter, decide_eq_true_eq]
      constructor
      · rintro ⟨p, ⟨hp, hq⟩, rfl⟩
        exact ⟨p, hp, rfl, hq⟩
      · rintro ⟨p, hp, hfst, hq⟩
        exact ⟨p, ⟨hp, hq⟩, hfst⟩
    simp only [ConnectionManager._periodic_cleanup_sweep]
    rw [hasConn_foldl_disconnect]
    simp only [hS]
  · intro hok
    unfold ConnectionManager.send_completion
    split <;> simp [hok]
  · intro hok
    unfold ConnectionManager.send_error
    split <;> simp [hok]
  · intro h hok
    simp [ConnectionManager.send_progress, h, hok]

/-- Claim C8 (witness): concretely, a successful completion send leaves the
manager untouched, while a successful progress send refreshes the timestamp. -/
theorem claim8_witness :
    ConnectionManager.send_completion ⟨["c"], [("c", 0)], 300⟩ (fun _ => true) "c"
      = ⟨["c"], [("c", 0)], 300⟩ ∧
    ConnectionManager.send_progress ⟨["c"], [("c", 0)], 300⟩ (fun _ => true) "c" 7
      = ⟨["c"], ConnectionManager.setTimestamp [("c", 0)] "c" 7, 300⟩ :=
  ⟨(claim8_main ⟨["c"], [("c", 0)], 300⟩ 7 "c" (fun _ => true)).2.1 rfl,
   (claim8_main ⟨["c"], [("c", 0)], 300⟩ 7 "c" (fun _ => true)).2.2.2 (by decide) rfl⟩

end RiffRoom
